import Mathlib

/-!
Verification of the parserbot repository (Avito listing parser `parser.py`
and Telegram notification bot `bot.py`) against its natural-language
specification.  Python strings are embedded as `List Char`; machine integers
are unbounded in Python, so `Int`/`Nat` are exact.  Timestamps are modelled
as `Int` seconds.
-/

namespace Parserbot

/-- Common whitespace characters recognised by Python's `str.split()`,
`str.strip()` and the regex class `\s` (the rare control/Unicode space
characters beyond these are not modelled). -/
def isPySpace (c : Char) : Bool :=
  c == ' ' || c == '\t' || c == '\n' || c == '\r' || c == '\x0b' ||
  c == '\x0c' || c == ' '

/-- Python `str.lower()` restricted to the alphabets the sources use:
ASCII letters and the Russian Cyrillic block. -/
def pyLowerChar (c : Char) : Char :=
  if 'A' ≤ c ∧ c ≤ 'Z' then Char.ofNat (c.toNat + 32)
  else if 'А' ≤ c ∧ c ≤ 'Я' then Char.ofNat (c.toNat + 32)
  else if c = 'Ё' then 'ё'
  else c

def pyLower (s : List Char) : List Char := s.map pyLowerChar

/-- Python `str.strip()`: drop whitespace from both ends. -/
def pyStrip (s : List Char) : List Char :=
  (((s.dropWhile isPySpace).reverse).dropWhile isPySpace).reverse

/-- Python substring test `needle in hay`. -/
def occursIn (needle : List Char) : List Char → Bool
  | [] => needle.isEmpty
  | c :: rest => needle.isPrefixOf (c :: rest) || occursIn needle rest

/-- Decimal value of a digit string. -/
def digitsToNat (ds : List Char) : Nat :=
  ds.foldl (fun n c => 10 * n + (c.toNat - 48)) 0

def pyIntDigits (ds : List Char) : Option Nat :=
  if ds.isEmpty then none
  else if ds.all Char.isDigit then some (digitsToNat ds) else none

/-- Python `int(s)` on a string: strip whitespace, optional sign, then a
nonempty run of decimal digits; anything else raises `ValueError`, modelled
as `none`.  (Numeric-literal underscores, which never occur in this feed,
are not modelled.) -/
def pyInt (s : List Char) : Option Int :=
  match pyStrip s with
  | '-' :: ds => (pyIntDigits ds).map (fun n => -(n : Int))
  | '+' :: ds => (pyIntDigits ds).map (fun n => (n : Int))
  | ds => (pyIntDigits ds).map (fun n => (n : Int))

/-- `parser.in_digits`: `all(ch.isdigit() for ch in s)`.  `ch.isdigit()` is
modelled as the decimal-digit test (exotic Unicode digit characters, which
the feed never produces, are not modelled). -/
def in_digits (s : List Char) : Bool := s.all Char.isDigit

/-- Python `str.split()` with no separator: split on runs of whitespace,
dropping empty tokens; auxiliary accumulator form. -/
def splitWSAux : List Char → List Char → List (List Char)
  | acc, [] => if acc.isEmpty then [] else [acc.reverse]
  | acc, c :: rest =>
    if isPySpace c then
      if acc.isEmpty then splitWSAux [] rest
      else acc.reverse :: splitWSAux [] rest
    else splitWSAux (c :: acc) rest

def splitWS (s : List Char) : List (List Char) := splitWSAux [] s

/-- `time_to_metro.replace("–", " ")`, one character at a time. -/
def dashToSpace (c : Char) : Char := if c = '–' then ' ' else c

/-- The whitespace/en-dash tokens of `refactor_time_to_metro`'s input. -/
def tokensOf (s : List Char) : List (List Char) :=
  splitWS (s.map dashToSpace)

/-- One step of `refactor_time_to_metro`'s loop:
`if in_digits(t): tdigit = int(t); if tdigit > res: res = tdigit`. -/
def tokStep (res : Nat) (t : List Char) : Nat :=
  if in_digits t then (if digitsToNat t > res then digitsToNat t else res)
  else res

/-- `parser.refactor_time_to_metro`: replace the en-dash by a space, split
on whitespace, and return the largest all-digit token, or 0. -/
def refactor_time_to_metro (s : List Char) : Nat :=
  (tokensOf s).foldl tokStep 0

/-- Python `add.split(" · ")`: split on the exact three-character
separator, keeping empty parts. -/
def splitMidDot : List Char → List (List Char)
  | ' ' :: '·' :: ' ' :: rest => [] :: splitMidDot rest
  | c :: rest =>
    match splitMidDot rest with
    | [] => [[c]]
    | p :: ps => (c :: p) :: ps
  | [] => [[]]

/-- The regex `re.search(r"(\d[\d\s]*)", p)`: the first digit together with
the following maximal run of digits and whitespace.  (`\d+`-style
backtracking never changes this match, so the scan is deterministic.) -/
def firstDigitRun : List Char → Option (List Char)
  | [] => none
  | c :: rest =>
    if c.isDigit then some (c :: rest.takeWhile (fun d => d.isDigit || isPySpace d))
    else firstDigitRun rest

/-- `m.group(1).replace(" ", "")` followed by `int(...)`; a failing `int`
(e.g. an internal tab survives the space-removal) is `none`. -/
def runToNat (run : List Char) : Option Nat :=
  match pyInt (run.filter (fun c => c ≠ ' ')) with
  | some (Int.ofNat n) => some n
  | _ => none

/-- `p.strip().replace(" ", " ")` applied to one clause. -/
def cleanClause (part : List Char) : List Char :=
  (pyStrip part).map (fun c => if c = ' ' then ' ' else c)

def hasNoDep (part : List Char) : Bool :=
  occursIn ("без залога".toList) (pyLower (cleanClause part))

def hasDep (part : List Char) : Bool :=
  occursIn ("залог".toList) (pyLower (cleanClause part))

def hasNoCom (part : List Char) : Bool :=
  occursIn ("без комиссии".toList) (pyLower (cleanClause part))

def hasCom (part : List Char) : Bool :=
  occursIn ("комис".toList) (pyLower (cleanClause part))

/-- The numeric amount the clause carries, if its first digit run parses. -/
def depNum (part : List Char) : Option Nat :=
  (firstDigitRun (cleanClause part)).bind runToNat

/-- One iteration of `split_add`'s `for p in parts` loop: the two
independent keyword checks of `parser.split_add`, last applicable clause
winning per field; an unparseable or absent digit run leaves the field
unchanged. -/
def clause_step (dc : Nat × Nat) (part : List Char) : Nat × Nat :=
  ((if hasNoDep part then 0
    else if hasDep part then (depNum part).getD dc.1 else dc.1),
   (if hasNoCom part then 0
    else if hasCom part then (depNum part).getD dc.2 else dc.2))

/-- `parser.split_add`: deposit and commission extracted from the
middle-dot-separated clause list. -/
def split_add (s : List Char) : Nat × Nat :=
  (splitMidDot s).foldl clause_step (0, 0)

/-- `title.replace("эт.", "")`, left to right, non-overlapping. -/
def stripEt : List Char → List Char
  | 'э' :: 'т' :: '.' :: rest => stripEt rest
  | c :: rest => c :: stripEt rest
  | [] => []

/-- `title.replace("этаж", "")`, left to right, non-overlapping. -/
def stripEtazh : List Char → List Char
  | 'э' :: 'т' :: 'а' :: 'ж' :: rest => stripEtazh rest
  | c :: rest => c :: stripEtazh rest
  | [] => []

/-- `.replace(" ", " ")`. -/
def nbspToSpace (s : List Char) : List Char :=
  s.map (fun c => if c = ' ' then ' ' else c)

/-- A leftmost-match regex scan: try the matcher at every position, left to
right (also at the end-of-string position, as `re.search` does). -/
def scan {α : Type} (f : List Char → Option α) : List Char → Option α
  | [] => f []
  | c :: rest =>
    match f (c :: rest) with
    | some a => some a
    | none => scan f rest

/-- The value of `float("<ip>.<fp>")` for the digit strings the area regex
captures, as an exact rational. -/
def qOfParts (ip fp : List Char) : ℚ :=
  (digitsToNat ip : ℚ) + (digitsToNat fp : ℚ) / (10 : ℚ) ^ fp.length

/-- The optional `(?:[.,]\d+)?` fraction after the integer part: returns
(fraction digits, rest of the input). -/
def fracParts (r : List Char) : List Char × List Char :=
  match r with
  | c :: rest =>
    if c == '.' || c == ',' then
      let f := rest.takeWhile Char.isDigit
      if f.isEmpty then ([], r) else (f, rest.drop f.length)
    else ([], r)
  | [] => ([], [])

/-- Anchored match of `(\d+(?:[.,]\d+)?)\s*м²` (the greedy match is the
only possible one here, so no backtracking is modelled). -/
def areaAt (s : List Char) : Option ℚ :=
  let ip := s.takeWhile Char.isDigit
  if ip.isEmpty then none
  else
    let pr := fracParts (s.drop ip.length)
    match pr.2.dropWhile isPySpace with
    | 'м' :: '²' :: _ => some (qOfParts ip pr.1)
    | _ => none

/-- Anchored match of `(\d+)[-\s]*к`. -/
def roomsAt (s : List Char) : Option Nat :=
  let ds := s.takeWhile Char.isDigit
  if ds.isEmpty then none
  else
    match (s.drop ds.length).dropWhile (fun c => c == '-' || isPySpace c) with
    | 'к' :: _ => some (digitsToNat ds)
    | _ => none

/-- Anchored match of `(\d+)\s*\/\s*(\d+)`. -/
def floorsAt (s : List Char) : Option (Nat × Nat) :=
  let ds := s.takeWhile Char.isDigit
  if ds.isEmpty then none
  else
    match (s.drop ds.length).dropWhile isPySpace with
    | '/' :: r2 =>
      let r3 := r2.dropWhile isPySpace
      let ds2 := r3.takeWhile Char.isDigit
      if ds2.isEmpty then none else some (digitsToNat ds, digitsToNat ds2)
    | _ => none

/-- `parser.split_title`: normalise floor abbreviations and NBSP, then
extract (rooms, area m², floor, building floors), each defaulting to 0. -/
def split_title (title : List Char) : Nat × ℚ × Nat × Nat :=
  let t := nbspToSpace (stripEtazh (stripEt title))
  let squares := (scan areaAt t).getD 0
  let rooms :=
    if occursIn ("студ".toList) (pyLower t) then 0
    else (scan roomsAt t).getD 0
  let fl := (scan floorsAt t).getD (0, 0)
  (rooms, squares, fl.1, fl.2)

/-- `parser.Ad`: one assembled listing, all extracted fields in memory. -/
structure Ad where
  id : Int
  title : List Char
  link : List Char
  price : Int
  comission : Nat
  squares : ℚ
  apart_floor : Nat
  house_floor : Nat
  rooms : Nat
  deposit : Nat
  metro : List Char
  time_to_metro : Nat
deriving DecidableEq

/-- One decomposed listing fragment as the markup query exposes it to
`parse_and_save`: the `data-item-id` attribute (empty when absent, as
`g.get(..., "")` yields), the optional title / price-meta / specifics
texts, the location paragraphs (each a list of span texts), and the
optional href of the first anchor. -/
structure Fragment where
  idAttr : List Char
  titleEl : Option (List Char)
  priceMeta : Option (List Char)
  addEl : Option (List Char)
  locParas : List (List (List Char))
  linkEl : Option (List Char)
deriving DecidableEq

/-- Modelled from the spec: `urllib.parse.urljoin` is an external library
call; §4.2 requires a non-absolute href to be resolved against the base
origin `https://www.avito.ru`. -/
def urljoinAvito (href : List Char) : List Char :=
  if href.head? = some '/' then "https://www.avito.ru".toList ++ href
  else "https://www.avito.ru/".toList ++ href

/-- The body of `parse_and_save`'s per-item loop: build the `Ad` for one
fragment, or skip (`none`) when the id attribute is not a parseable
integer. -/
def assembleAd (f : Fragment) : Option Ad :=
  match pyInt f.idAttr with
  | none => none
  | some i =>
    let title := f.titleEl.getD []
    let st := split_title title
    let price :=
      match f.priceMeta with
      | none => 0
      | some s => (pyInt s).getD 0
    let dc := split_add (f.addEl.getD [])
    let mt :=
      match f.locParas with
      | _ :: p1 :: _ =>
        ((match p1 with
          | _ :: s1 :: _ => s1
          | _ => []),
         (match p1 with
          | _ :: _ :: s2 :: _ => refactor_time_to_metro s2
          | _ => 0))
      | _ => ([], 0)
    let link0 := f.linkEl.getD []
    let link :=
      if ¬ link0.isEmpty ∧ ¬ ("http".toList.isPrefixOf link0) then urljoinAvito link0
      else link0
    some { id := i, title := title, link := link, price := price,
           comission := dc.2, squares := st.2.1, apart_floor := st.2.2.1,
           house_floor := st.2.2.2, rooms := st.1, deposit := dc.1,
           metro := mt.1, time_to_metro := mt.2 }

/-- The record handed to `add_apart`: exactly the keys of the dict built
in `parse_and_save`. -/
structure ApartRow where
  id : Int
  title : List Char
  link : List Char
  price : Int
  rooms : Nat
deriving DecidableEq

def toRow (a : Ad) : ApartRow :=
  { id := a.id, title := a.title, link := a.link, price := a.price,
    rooms := a.rooms }

def assembleRow (f : Fragment) : Option ApartRow :=
  (assembleAd f).map toRow

/-- `parser.parse_and_save` over already-decomposed fragments: raises
(`Except.error`) when the page has no items at all, otherwise skips the
fragments without a parseable id and stores a row per remaining
fragment. -/
def parse_and_save (frags : List Fragment) : Except String (List ApartRow) :=
  if frags.isEmpty then Except.error "Не найдено ни одного объявления на странице"
  else Except.ok (frags.filterMap assembleRow)

/-- `parser.parse_loop`'s failure threshold. -/
def max_consecutive_errors : Nat := 5

/-- One tick of `parser.parse_loop`, given the current consecutive-failure
counter and whether the fetch+parse pass succeeded: `none` models the
fatal `RuntimeError` that stops the loop; otherwise the new counter is
returned together with the delay (always `interval`) before the next
tick. -/
def parse_step (interval : Nat) (errs : Nat) (ok : Bool) : Option (Nat × Nat) :=
  if ok then some (0, interval)
  else if errs + 1 ≥ max_consecutive_errors then none
  else some (errs + 1, interval)

/-- `parse_loop` run over a trace of cycle outcomes: the final counter, or
`none` when the loop died fatally along the way. -/
def parse_run (interval : Nat) : Nat → List Bool → Option Nat
  | errs, [] => some errs
  | errs, ok :: rest =>
    match parse_step interval errs ok with
    | none => none
    | some (e, _) => parse_run interval e rest

/-- One row as `bot.search_loop` reads it back from the store: the
persisted fields plus the `created_at` timestamp the store assigned at
insertion. -/
structure BotAd where
  price : Int
  rooms : Nat
  title : List Char
  link : List Char
  created_at : Int
deriving DecidableEq

/-- The message text built in `bot.search_loop` for one ad. -/
def deliveredText (a : BotAd) : List Char :=
  "Цена: ".toList ++ (toString a.price).toList ++ " ₽\n".toList ++
  "Комнат: ".toList ++ (toString a.rooms).toList ++ "\n".toList ++
  a.title ++ "\n".toList ++ a.link

/-- `bot.UserState`, with `since` the subscriber's watermark. -/
structure UserState where
  waiting_for_price : Bool := false
  min_price : Option Int := none
  max_price : Option Int := none
  waiting_for_rooms : Bool := false
  rooms : Option (List Nat) := none
  searching : Bool := false
  since : Option Int := none
deriving DecidableEq

/-- `timedelta(minutes=1)` in seconds: the grace window subtracted from
"now" when a search starts. -/
def graceSeconds : Int := 60

/-- The `start_search` branch of `bot.on_callback`: a no-op when already
searching, otherwise set `searching` and reset the watermark to now minus
the grace window. -/
def start_search (now : Int) (st : UserState) : UserState :=
  if st.searching then st
  else { st with searching := true, since := some (now - graceSeconds) }

/-- The `stop_search` branch of `bot.on_callback`. -/
def stop_search (st : UserState) : UserState :=
  if st.searching then { st with searching := false } else st

/-- The subscriber's filter on one row, per the spec's Store contract. -/
def matches_filter (minP maxP : Option Int) (rs : Option (List Nat))
    (a : BotAd) : Bool :=
  (match minP with | none => true | some m => decide (m ≤ a.price)) &&
  (match maxP with | none => true | some m => decide (a.price ≤ m)) &&
  (match rs with | none => true | some l => l.contains a.rooms)

/-- Modelled from the spec: `db.get_new_aparts` lives in `db.py`, which is
not among the sources.  §6's Store contract: return the records with
`observedAt > since` that match the filter, at most `limit` of them,
ascending by `observedAt` (the store list is taken in that order). -/
def get_new_aparts (store : List BotAd) (minP maxP : Option Int)
    (rs : Option (List Nat)) (since : Int) (lim : Nat) : List BotAd :=
  (store.filter
    (fun a => decide (since < a.created_at) && matches_filter minP maxP rs a)).take lim

/-- The watermark after one `search_loop` iteration that fetched `ads`:
`max(ad["created_at"] for ad in ads)` when the batch is nonempty, the old
value otherwise. -/
def next_since (since : Int) (ads : List BotAd) : Int :=
  match ads with
  | [] => since
  | a :: rest => rest.foldl (fun m b => max m b.created_at) a.created_at

/-- The delivery `for ad in ads` loop: each send is attempted in order and
a failing send (`sendOk a = false`) is caught and logged, so the loop goes
on; returns (ads attempted, ads actually delivered). -/
def send_all (sendOk : BotAd → Bool) : List BotAd → List BotAd × List BotAd
  | [] => ([], [])
  | a :: rest =>
    let p := send_all sendOk rest
    (a :: p.1, if sendOk a then a :: p.2 else p.2)

/-- One `search_loop` iteration body on a fetched batch: attempt every
delivery, then advance the watermark from the batch alone.  Returns
(attempted, delivered, new watermark). -/
def search_iter (since : Int) (sendOk : BotAd → Bool) (ads : List BotAd) :
    List BotAd × List BotAd × Int :=
  let p := send_all sendOk ads
  (p.1, p.2, next_since since ads)

/-- The watermark after a sequence of `search_loop` iterations whose
fetched batches were `bs`. -/
def search_run (since : Int) : List (List BotAd) → Int
  | [] => since
  | b :: bs => search_run (next_since since b) bs

/-- The Store contract along a trace: every batch contains only records
strictly newer than the watermark passed to that iteration's query. -/
def ValidTrace : Int → List (List BotAd) → Prop
  | _, [] => True
  | w, b :: bs => (∀ a ∈ b, w < a.created_at) ∧ ValidTrace (next_since w b) bs

/-- A running search session: one store snapshot per iteration, each
iteration fetching through `get_new_aparts` with the current watermark and
delivering everything fetched; returns all records delivered during the
session. -/
def session_run (minP maxP : Option Int) (rs : Option (List Nat)) :
    Int → List (List BotAd) → List BotAd
  | _, [] => []
  | w, store :: stores =>
    let ads := get_new_aparts store minP maxP rs w 100
    ads ++ session_run minP maxP rs (next_since w ads) stores

/-! Helper lemmas about folds, membership and option-valued scans. -/

lemma tokStep_self_le (i : Nat) (t : List Char) : i ≤ tokStep i t := by
  unfold tokStep
  split
  · split <;> omega
  · exact le_refl i

lemma le_foldl_tokStep (l : List (List Char)) : ∀ i : Nat, i ≤ l.foldl tokStep i := by
  induction l with
  | nil => intro i; exact le_refl i
  | cons t l ih =>
    intro i
    exact le_trans (tokStep_self_le i t) (ih (tokStep i t))

lemma foldl_tokStep_ub (l : List (List Char)) :
    ∀ (i : Nat) (t : List Char), t ∈ l → in_digits t = true →
      digitsToNat t ≤ l.foldl tokStep i := by
  induction l with
  | nil => intro i t ht _; simp at ht
  | cons u l ih =>
    intro i t ht hd
    rcases List.mem_cons.mp ht with h | h
    · subst h
      refine le_trans ?_ (le_foldl_tokStep l (tokStep i t))
      unfold tokStep
      rw [hd]
      simp only [if_true]
      split <;> omega
    · exact ih (tokStep i u) t h hd

lemma foldl_tokStep_attained (l : List (List Char)) :
    ∀ i : Nat, l.foldl tokStep i = i ∨
      ∃ t ∈ l, in_digits t = true ∧ digitsToNat t = l.foldl tokStep i := by
  induction l with
  | nil => intro i; left; rfl
  | cons u l ih =>
    intro i
    have hfold : (u :: l).foldl tokStep i = l.foldl tokStep (tokStep i u) := rfl
    rcases ih (tokStep i u) with h | ⟨t, ht, hd, he⟩
    · rw [hfold, h]
      unfold tokStep
      by_cases hd : in_digits u
      · rw [hd]
        simp only [if_true]
        by_cases hgt : digitsToNat u > i
        · right
          exact ⟨u, List.mem_cons_self u l, hd, by simp [hgt]⟩
        · left; simp [hgt]
      · left; simp [hd]
    · right
      exact ⟨t, List.mem_cons_of_mem u ht, hd, by rw [hfold]; exact he⟩

/-! Claim theorems and their witnesses. -/

/-- C9: `in_digits` (the spec's `isAllDigits`) is true iff every character
of the input is a decimal digit; in particular it is true on `""` and
`"007"` and false on `"12a"`. -/
theorem in_digits_spec :
    (∀ s : List Char, in_digits s = true ↔ ∀ c ∈ s, c.isDigit = true) ∧
    in_digits "".toList = true ∧
    in_digits "12a".toList = false ∧
    in_digits "007".toList = true := by
  refine ⟨fun s => ?_, by decide, by decide, by decide⟩
  simp [in_digits, List.all_eq_true]

/-- Witness for C9 at the concrete input `"007"`. -/
theorem in_digits_spec_witness : ('0' : Char).isDigit = true :=
  (in_digits_spec.1 ['0', '0', '7']).mp (by decide) '0' (by decide)

/-- C10: `refactor_time_to_metro` (the spec's `maxIntegerToken`) splits on
whitespace and the en-dash, and returns the maximum all-digit token (an
upper bound that is attained unless the result is the default 0); the
spec's three concrete examples hold. -/
theorem refactor_spec :
    refactor_time_to_metro ("10–15 min walk".toList) = 15 ∧
    refactor_time_to_metro ("walk".toList) = 0 ∧
    refactor_time_to_metro ("".toList) = 0 ∧
    (∀ (s t : List Char), t ∈ tokensOf s → in_digits t = true →
      digitsToNat t ≤ refactor_time_to_metro s) ∧
    (∀ s : List Char, refactor_time_to_metro s = 0 ∨
      ∃ t ∈ tokensOf s, in_digits t = true ∧
        digitsToNat t = refactor_time_to_metro s) := by
  refine ⟨by decide, by decide, by decide, ?_, ?_⟩
  · intro s t ht hd
    exact foldl_tokStep_ub (tokensOf s) 0 t ht hd
  · intro s
    exact foldl_tokStep_attained (tokensOf s) 0

/-- Witness for C10 at the concrete input `"10–15 min walk"`. -/
theorem refactor_spec_witness :
    digitsToNat ("15".toList) ≤ refactor_time_to_metro ("10–15 min walk".toList) :=
  refactor_spec.2.2.2.1 ("10–15 min walk".toList) ("15".toList) (by decide) (by decide)

/-- C7: `split_add` (the spec's `splitDepositCommission`) evaluates the
middle-dot clauses left to right with last-applicable-clause-wins per
field: a "без залога" clause forces deposit 0 overriding anything earlier,
a "залог" clause with a parseable digit run sets the deposit to it, and
symmetrically for commission; the spec's three concrete examples hold
(with the code's Russian keywords in place of the spec's English
glosses). -/
theorem split_add_spec :
    split_add ("без залога · комиссия 15 000".toList) = (0, 15000) ∧
    split_add ("залог 30 000".toList) = (30000, 0) ∧
    split_add ("".toList) = (0, 0) ∧
    (∀ (dc : Nat × Nat) (ps : List (List Char)) (p : List Char),
      hasNoDep p = true → (List.foldl clause_step dc (ps ++ [p])).1 = 0) ∧
    (∀ (dc : Nat × Nat) (ps : List (List Char)) (p : List Char) (n : Nat),
      hasNoDep p = false → hasDep p = true → depNum p = some n →
      (List.foldl clause_step dc (ps ++ [p])).1 = n) ∧
    (∀ (dc : Nat × Nat) (ps : List (List Char)) (p : List Char),
      hasNoCom p = true → (List.foldl clause_step dc (ps ++ [p])).2 = 0) ∧
    (∀ (dc : Nat × Nat) (ps : List (List Char)) (p : List Char) (n : Nat),
      hasNoCom p = false → hasCom p = true → depNum p = some n →
      (List.foldl clause_step dc (ps ++ [p])).2 = n) := by
  refine ⟨by decide, by decide, by decide, ?_, ?_, ?_, ?_⟩
  · intro dc ps p h
    rw [List.foldl_append]
    simp [clause_step, h]
  · intro dc ps p n h1 h2 h3
    rw [List.foldl_append]
    simp [clause_step, h1, h2, h3]
  · intro dc ps p h
    rw [List.foldl_append]
    simp [clause_step, h]
  · intro dc ps p n h1 h2 h3
    rw [List.foldl_append]
    simp [clause_step, h1, h2, h3]

/-- Witness for C7: the override rule at a concrete clause list. -/
theorem split_add_spec_witness :
    (List.foldl clause_step (7, 7)
      (["залог 30 000".toList] ++ ["без залога".toList])).1 = 0 :=
  split_add_spec.2.2.2.1 (7, 7) ["залог 30 000".toList] ("без залога".toList) (by decide)

/-- C3: one `parse_loop` tick resets the consecutive-failure counter to 0
on success and increments it on failure, with the same fixed delay in both
non-fatal cases; when the incremented counter reaches the threshold 5 the
tick is fatal (`none`) and the whole run stops regardless of later
outcomes. -/
theorem failure_counter_spec (interval errs : Nat) (rest : List Bool) :
    parse_step interval errs true = some (0, interval) ∧
    (errs + 1 < max_consecutive_errors →
      parse_step interval errs false = some (errs + 1, interval)) ∧
    (max_consecutive_errors ≤ errs + 1 →
      parse_step interval errs false = none) ∧
    (max_consecutive_errors ≤ errs + 1 →
      parse_run interval errs (false :: rest) = none) := by
  refine ⟨rfl, fun h => ?_, fun h => ?_, fun h => ?_⟩
  · simp only [parse_step, Bool.false_eq_true, if_false]
    rw [if_neg (by omega)]
  · simp only [parse_step, Bool.false_eq_true, if_false]
    rw [if_pos h]
  · have hstep : parse_step interval errs false = none := by
      simp only [parse_step, Bool.false_eq_true, if_false]
      rw [if_pos h]
    simp [parse_run, hstep]

/-- Witness for C3 at counter 4 and a failing cycle. -/
theorem failure_counter_spec_witness : parse_run 300 4 [false, true] = none :=
  (failure_counter_spec 300 4 [true]).2.2.2 (by decide)

/-- C8: in one notification-loop iteration every fetched record's delivery
is attempted no matter which deliveries fail, and the new watermark is
independent of the delivery outcomes: it is always the one computed from
the fetched batch alone. -/
theorem delivery_failure_isolated (since : Int) (ads : List BotAd)
    (f g : BotAd → Bool) :
    (search_iter since f ads).1 = ads ∧
    (search_iter since f ads).2.2 = (search_iter since g ads).2.2 ∧
    (search_iter since f ads).2.2 = next_since since ads := by
  refine ⟨?_, rfl, rfl⟩
  show (send_all f ads).1 = ads
  induction ads with
  | nil => rfl
  | cons a rest ih => simp [send_all, ih]

lemma le_foldl_maxCreated (l : List BotAd) :
    ∀ i : Int, i ≤ l.foldl (fun m b => max m b.created_at) i := by
  induction l with
  | nil => intro i; exact le_refl i
  | cons a l ih =>
    intro i
    exact le_trans (le_max_left i a.created_at) (ih (max i a.created_at))

lemma mem_le_foldl_maxCreated (l : List BotAd) :
    ∀ (i : Int), ∀ a ∈ l, a.created_at ≤ l.foldl (fun m b => max m b.created_at) i := by
  induction l with
  | nil => intro i a h; simp at h
  | cons b l ih =>
    intro i a h
    rcases List.mem_cons.mp h with h | h
    · subst h
      exact le_trans (le_max_right i a.created_at) (le_foldl_maxCreated l _)
    · exact ih _ a h

lemma foldl_maxCreated_mem (l : List BotAd) :
    ∀ i : Int, l.foldl (fun m b => max m b.created_at) i = i ∨
      l.foldl (fun m b => max m b.created_at) i ∈ l.map (fun a => a.created_at) := by
  induction l with
  | nil => intro i; left; rfl
  | cons a l ih =>
    intro i
    have hfold : (a :: l).foldl (fun m b => max m b.created_at) i =
        l.foldl (fun m b => max m b.created_at) (max i a.created_at) := rfl
    rcases ih (max i a.created_at) with h | h
    · rw [hfold, h]
      rcases le_total i a.created_at with hle | hle
      · right
        rw [max_eq_right hle]
        exact List.mem_cons_self _ _
      · left
        exact max_eq_left hle
    · right
      rw [hfold]
      exact List.mem_cons_of_mem _ h

lemma next_since_ge (w : Int) (ads : List BotAd)
    (h : ∀ a ∈ ads, w < a.created_at) : w ≤ next_since w ads := by
  cases ads with
  | nil => exact le_refl w
  | cons a rest =>
    have h1 : w ≤ a.created_at := le_of_lt (h a (List.mem_cons_self a rest))
    exact le_trans h1 (le_foldl_maxCreated rest a.created_at)

lemma next_since_ub (w : Int) (ads : List BotAd) :
    ∀ a ∈ ads, a.created_at ≤ next_since w ads := by
  cases ads with
  | nil => intro a h; simp at h
  | cons b rest =>
    intro a h
    rcases List.mem_cons.mp h with h | h
    · subst h
      exact le_foldl_maxCreated rest a.created_at
    · exact mem_le_foldl_maxCreated rest b.created_at a h

lemma next_since_mem (w : Int) (ads : List BotAd) (h : ads ≠ []) :
    next_since w ads ∈ ads.map (fun a => a.created_at) := by
  cases ads with
  | nil => exact absurd rfl h
  | cons a rest =>
    rcases foldl_maxCreated_mem rest a.created_at with h1 | h1
    · show rest.foldl (fun m b => max m b.created_at) a.created_at ∈ _
      rw [h1, List.map_cons]
      exact List.mem_cons_self _ _
    · show rest.foldl (fun m b => max m b.created_at) a.created_at ∈ _
      rw [List.map_cons]
      exact List.mem_cons_of_mem _ h1

lemma search_run_mono (bs : List (List BotAd)) :
    ∀ w : Int, ValidTrace w bs → w ≤ search_run w bs := by
  induction bs with
  | nil => intro w _; exact le_refl w
  | cons b bs ih =>
    intro w hv
    exact le_trans (next_since_ge w b hv.1) (ih (next_since w b) hv.2)

/-- C1: along any sequence of poll iterations whose batches respect the
store contract (only records strictly newer than the queried watermark),
the watermark never decreases; each iteration leaves it unchanged on an
empty batch and otherwise advances it to the maximum `created_at` of the
batch (an upper bound of the batch that the batch attains). -/
theorem watermark_monotone (w : Int) (bs : List (List BotAd)) (ads : List BotAd)
    (hv : ValidTrace w bs) (hq : ∀ a ∈ ads, w < a.created_at) :
    w ≤ search_run w bs ∧
    next_since w [] = w ∧
    w ≤ next_since w ads ∧
    (∀ a ∈ ads, a.created_at ≤ next_since w ads) ∧
    (ads ≠ [] → next_since w ads ∈ ads.map (fun a => a.created_at)) :=
  ⟨search_run_mono bs w hv, rfl, next_since_ge w ads hq,
   next_since_ub w ads, fun h => next_since_mem w ads h⟩

/-- Witness for C1: a one-iteration trace with a single newer record. -/
theorem watermark_monotone_witness :
    (3 : Int) ≤ search_run 3 [[⟨0, 0, [], [], 5⟩]] := by
  refine (watermark_monotone 3 [[⟨0, 0, [], [], 5⟩]] [] ?_ ?_).1
  · refine ⟨?_, trivial⟩
    intro a ha
    rw [List.mem_singleton] at ha
    subst ha
    decide
  · intro a ha
    simp at ha

lemma qOfParts_nonneg (ip fp : List Char) : 0 ≤ qOfParts ip fp := by
  unfold qOfParts
  positivity

lemma areaAt_nonneg (s : List Char) (q : ℚ) (h : areaAt s = some q) : 0 ≤ q := by
  simp only [areaAt] at h
  split at h
  · exact absurd h (by simp)
  · split at h
    · rw [Option.some_inj] at h
      rw [← h]
      exact qOfParts_nonneg _ _
    · exact absurd h (by simp)

lemma scan_some {α : Type} (f : List Char → Option α) (l : List Char) (a : α)
    (h : scan f l = some a) : ∃ s, f s = some a := by
  induction l with
  | nil => exact ⟨[], h⟩
  | cons c rest ih =>
    unfold scan at h
    split at h
    · exact ⟨c :: rest, by rw [‹f (c :: rest) = some _›, ← h]⟩
    · exact ih h

lemma scan_areaAt_getD_nonneg (t : List Char) : 0 ≤ (scan areaAt t).getD 0 := by
  cases h : scan areaAt t with
  | none => simp
  | some q =>
    simp only [Option.getD_some]
    obtain ⟨s', hs⟩ := scan_some areaAt t q h
    exact areaAt_nonneg s' q hs

/-- C6: each field extractor is a total function of its input string (the
embedding's functions are defined on every `List Char`) whose result lies
in its documented domain: a boolean, a non-negative integer, a pair of
non-negative integers, and non-negative rooms/floor/building-floors with a
non-negative area. -/
theorem extractors_total (s : List Char) :
    (in_digits s = true ∨ in_digits s = false) ∧
    0 ≤ (refactor_time_to_metro s : Int) ∧
    0 ≤ ((split_add s).1 : Int) ∧
    0 ≤ ((split_add s).2 : Int) ∧
    0 ≤ ((split_title s).1 : Int) ∧
    0 ≤ (split_title s).2.1 ∧
    0 ≤ ((split_title s).2.2.1 : Int) ∧
    0 ≤ ((split_title s).2.2.2 : Int) := by
  refine ⟨?_, Int.ofNat_nonneg _, Int.ofNat_nonneg _, Int.ofNat_nonneg _,
    Int.ofNat_nonneg _, ?_, Int.ofNat_nonneg _, Int.ofNat_nonneg _⟩
  · cases h : in_digits s
    · right; rfl
    · left; rfl
  · exact scan_areaAt_getD_nonneg (nbspToSpace (stripEtazh (stripEt s)))

lemma assembleAd_none (f : Fragment) (h : pyInt f.idAttr = none) :
    assembleAd f = none := by
  simp [assembleAd, h]

lemma assembleRow_isSome (f : Fragment) (h : (pyInt f.idAttr).isSome = true) :
    (assembleRow f).isSome = true := by
  rcases Option.isSome_iff_exists.mp h with ⟨i, hi⟩
  simp [assembleRow, assembleAd, hi]

lemma filterMap_assembleRow_length (l : List Fragment)
    (h : ∀ f ∈ l, (pyInt f.idAttr).isSome = true) :
    (l.filterMap assembleRow).length = l.length := by
  induction l with
  | nil => rfl
  | cons f l ih =>
    have hf := assembleRow_isSome f (h f (List.mem_cons_self f l))
    rcases Option.isSome_iff_exists.mp hf with ⟨r, hr⟩
    rw [List.filterMap_cons_some hr, List.length_cons, List.length_cons,
      ih (fun g hg => h g (List.mem_cons_of_mem f hg))]

/-- C5: a fragment whose id attribute does not parse as an integer is
skipped without a row and without an error, and the rest of the batch is
still processed: with one malformed fragment among N fragments,
`parse_and_save` succeeds and stores exactly the rows of the other N-1
fragments. -/
theorem malformed_fragment_skip (pre post : List Fragment) (bad : Fragment)
    (hbad : pyInt bad.idAttr = none)
    (hgood : ∀ f ∈ pre ++ post, (pyInt f.idAttr).isSome = true) :
    parse_and_save (pre ++ bad :: post) =
      Except.ok ((pre ++ post).filterMap assembleRow) ∧
    ((pre ++ post).filterMap assembleRow).length =
      (pre ++ bad :: post).length - 1 := by
  have hb : assembleRow bad = none := by
    simp [assembleRow, assembleAd_none bad hbad]
  constructor
  · unfold parse_and_save
    rw [if_neg (by simp)]
    rw [List.filterMap_append, List.filterMap_append,
      List.filterMap_cons_none hb]
  · rw [filterMap_assembleRow_length (pre ++ post) hgood]
    simp only [List.length_append, List.length_cons]
    omega

/-- Witness for C5: one malformed fragment among two. -/
theorem malformed_fragment_skip_witness :
    parse_and_save [⟨"1".toList, none, none, none, [], none⟩,
                    ⟨"x".toList, none, none, none, [], none⟩] =
      Except.ok (([⟨"1".toList, none, none, none, [], none⟩] :
        List Fragment).filterMap assembleRow) ∧
    (([⟨"1".toList, none, none, none, [], none⟩] :
        List Fragment).filterMap assembleRow).length = 1 := by
  have h := malformed_fragment_skip [⟨"1".toList, none, none, none, [], none⟩]
    [] ⟨"x".toList, none, none, none, [], none⟩ (by decide)
    (by intro f hf; simp at hf; subst hf; decide)
  rw [List.append_nil] at h
  exact ⟨h.1, by rw [h.2]; rfl⟩

/-- C4: the row handed to the store and the text delivered to subscribers
are determined by the fields id, title, link, price and rooms alone (so
the extracted deposit, commission, area, floors, metro stop and
minutes-to-metro, although computed into the in-memory `Ad`, are never
persisted or delivered), and every stored row is exactly that projection
of some assembled `Ad`. -/
theorem stored_fields_spec :
    (∀ a b : Ad, a.id = b.id → a.title = b.title → a.link = b.link →
      a.price = b.price → a.rooms = b.rooms → toRow a = toRow b) ∧
    (∀ a b : BotAd, a.price = b.price → a.rooms = b.rooms →
      a.title = b.title → a.link = b.link →
      deliveredText a = deliveredText b) ∧
    (∀ (frags : List Fragment) (rows : List ApartRow),
      parse_and_save frags = Except.ok rows →
      ∀ row ∈ rows, ∃ f ∈ frags, ∃ ad, assembleAd f = some ad ∧ row = toRow ad) := by
  refine ⟨?_, ?_, ?_⟩
  · intro a b h1 h2 h3 h4 h5
    simp [toRow, h1, h2, h3, h4, h5]
  · intro a b h1 h2 h3 h4
    simp [deliveredText, h1, h2, h3, h4]
  · intro frags rows hok row hrow
    unfold parse_and_save at hok
    split at hok
    · exact absurd hok (by simp)
    · rw [Except.ok.injEq] at hok
      rw [← hok] at hrow
      rcases List.mem_filterMap.mp hrow with ⟨f, hf, hfr⟩
      rcases Option.map_eq_some'.mp hfr with ⟨ad, had, heq⟩
      exact ⟨f, hf, ad, had, heq.symm⟩

/-- Witness for C4: projection invariance and row provenance at concrete
inputs. -/
theorem stored_fields_spec_witness :
    toRow ⟨1, [], [], 2, 3, 4, 5, 6, 7, 8, ['м'], 9⟩ =
      toRow ⟨1, [], [], 2, 0, 0, 0, 0, 7, 0, [], 0⟩ ∧
    deliveredText ⟨2, 7, [], [], 100⟩ = deliveredText ⟨2, 7, [], [], 200⟩ ∧
    ∃ f ∈ ([⟨"1".toList, none, none, none, [], none⟩] : List Fragment),
      ∃ ad, assembleAd f = some ad ∧
        ({ id := 1, title := [], link := [], price := 0, rooms := 0 } :
          ApartRow) = toRow ad :=
  ⟨stored_fields_spec.1 _ _ rfl rfl rfl rfl rfl,
   stored_fields_spec.2.1 _ _ rfl rfl rfl rfl,
   stored_fields_spec.2.2 [⟨"1".toList, none, none, none, [], none⟩]
     [{ id := 1, title := [], link := [], price := 0, rooms := 0 }] rfl
     _ (List.mem_singleton.mpr rfl)⟩

lemma mem_get_new_aparts (store : List BotAd) (mp xp : Option Int)
    (rs : Option (List Nat)) (since : Int) (lim : Nat) (a : BotAd)
    (h : a ∈ get_new_aparts store mp xp rs since lim) : since < a.created_at := by
  unfold get_new_aparts at h
  have h2 := List.take_subset lim _ h
  have h3 := (List.mem_filter.mp h2).2
  rw [Bool.and_eq_true] at h3
  exact of_decide_eq_true h3.1

lemma session_run_gt (mp xp : Option Int) (rs : Option (List Nat)) :
    ∀ (stores : List (List BotAd)) (w : Int) (r : BotAd),
      r ∈ session_run mp xp rs w stores → w < r.created_at := by
  intro stores
  induction stores with
  | nil => intro w r h; simp [session_run] at h
  | cons store stores ih =>
    intro w r h
    simp only [session_run] at h
    rcases List.mem_append.mp h with h | h
    · exact mem_get_new_aparts store mp xp rs w 100 r h
    · have h1 := ih (next_since w (get_new_aparts store mp xp rs w 100)) r h
      have h2 : w ≤ next_since w (get_new_aparts store mp xp rs w 100) :=
        next_since_ge w _ (fun a ha => mem_get_new_aparts store mp xp rs w 100 a ha)
      exact lt_of_le_of_lt h2 h1

/-- C2 (amended): a start command on a non-searching state resets the
watermark to now minus the 60-second grace window; every record delivered
after such a restart has `created_at` strictly greater than that reset
watermark, so no record with `created_at` at or before `now - 60` — in
particular no record delivered before the stop with such a timestamp — is
ever delivered again after the restart.  (A record inside the grace window
can be re-delivered: see the counterexample to the unamended claim.) -/
theorem restart_grace_window (st : UserState) (now : Int) (mp xp : Option Int)
    (rs : Option (List Nat)) (stores : List (List BotAd))
    (h : st.searching = false) :
    (start_search now st).since = some (now - graceSeconds) ∧
    (∀ r ∈ session_run mp xp rs (now - graceSeconds) stores,
      now - graceSeconds < r.created_at) ∧
    (∀ r : BotAd, r.created_at ≤ now - graceSeconds →
      r ∉ session_run mp xp rs (now - graceSeconds) stores) := by
  refine ⟨?_, ?_, ?_⟩
  · simp [start_search, h]
  · intro r hr
    exact session_run_gt mp xp rs stores _ r hr
  · intro r hr hmem
    exact absurd (session_run_gt mp xp rs stores _ r hmem) (not_lt.mpr hr)

/-- Witness for C2's amended claim: a restart at time 100 on an idle state
puts the watermark at 40, and a record inserted at time 30 — at or before
the reset watermark — is not delivered after the restart even though the
store still holds it. -/
theorem restart_grace_window_witness :
    (start_search 100 {}).since = some 40 ∧
    (⟨0, 0, [], [], 30⟩ : BotAd) ∉
      session_run none none none (100 - graceSeconds) [[⟨0, 0, [], [], 30⟩]] := by
  have h := restart_grace_window {} 100 none none none [[⟨0, 0, [], [], 30⟩]] rfl
  refine ⟨?_, h.2.2 ⟨0, 0, [], [], 30⟩ (by decide)⟩
  rw [h.1]
  rfl

/-- Counterexample to C2 as stated: a record inserted at time 100 is
delivered in a first search session started at time 150 (watermark 90);
after a stop and a second start at time 155 the watermark resets to 95,
and the very same record is fetched — hence delivered — again. -/
theorem restart_redelivery_cex :
    ((⟨0, 0, [], [], 100⟩ : BotAd) ∈
      session_run none none none
        ((start_search 150 {}).since.getD 0) [[⟨0, 0, [], [], 100⟩]]) ∧
    (start_search 155 (stop_search
      { start_search 150 {} with
        since := some (next_since 90 [⟨0, 0, [], [], 100⟩]) })).since = some 95 ∧
    ((⟨0, 0, [], [], 100⟩ : BotAd) ∈
      session_run none none none 95 [[⟨0, 0, [], [], 100⟩]]) := by
  refine ⟨?_, ?_, ?_⟩ <;> decide

end Parserbot
